import Mathlib

/-!
Verification of the segmented-download pipeline of `skillcapped.py`.

The development shallowly embeds the relevant functions of the source:
`download_segment_async` (fetch one numbered chunk), `download_all_segments`
(batched sequencing loop), `download_video_async` (assembly via an external
remux tool, plus cleanup), and the job construction in `main`.  Machine-level
concerns (HTTP, the event loop, the external `ffmpeg` process) are modelled by
explicit oracles; `asyncio.gather` returns results in task-submission order,
which is why the batch results below are simply indexed by segment number.
-/

namespace Skillcapped

/-! ### Decimal rendering of segment numbers

The source computes `str(segment_number).zfill(5)`.  `natStr` is the decimal
representation of a natural number (repeated divmod by 10, least significant
digit first, then reversed), exactly Python's `str` on a non-negative int;
it uses a structurally decreasing fuel argument so that it evaluates in the
kernel. -/

/-- The character for a decimal digit `d < 10` (codepoint 48 + d). -/
def digitChar (d : Nat) : Char := Char.ofNat (48 + d)

/-- Digits of `n`, least significant first; `fuel` bounds the recursion. -/
def natDigitsRevAux : Nat → Nat → List Char
  | _, 0 => []
  | n, fuel + 1 =>
    if n < 10 then [digitChar n]
    else digitChar (n % 10) :: natDigitsRevAux (n / 10) fuel

/-- Decimal representation of a natural number, as Python `str`. -/
def natStr (n : Nat) : String := ⟨(natDigitsRevAux n (n + 1)).reverse⟩

/-- Python `str.zfill`: left-pad with the digit zero to the given width. -/
def zfill (width : Nat) (s : String) : String :=
  ⟨List.replicate (width - s.length) '0' ++ s.data⟩

/-- Numeric value of a digit character. -/
def decodeDigit (c : Char) : Nat := c.toNat - 48

/-- Value of a digit list, least significant digit first. -/
def decodeRev (l : List Char) : Nat :=
  l.foldr (fun c a => 10 * a + decodeDigit c) 0

/-- Value of a digit list, most significant digit first. -/
def decodeMSB (l : List Char) : Nat :=
  l.foldl (fun a c => 10 * a + decodeDigit c) 0

/-! ### Segment naming (`download_segment_async`, lines 115-141)

The source computes `piece_number = str(segment_number).zfill(5)`, the chunk
URL, and the local temp file `file_name = f"HIDDEN4500-{piece_number}.ts"`.
Note that `file_name` does not mention `video_id`: the local path function
below therefore ignores its `video_id` argument, exactly as the source does. -/

def piece_number (segment_number : Nat) : String := zfill 5 (natStr segment_number)

/-- The chunk URL built in `download_segment_async`. -/
def segment_url (video_id : String) (segment_number : Nat) : String :=
  "https://d13z5uuzt1wkbz.cloudfront.net/" ++ video_id ++ "/HIDDEN4500-" ++
    piece_number segment_number ++ ".ts"

/-- The local temp file name written by `download_segment_async`
(`f"HIDDEN4500-{piece_number}.ts"`); it depends only on the segment number. -/
def segment_file_name (segment_number : Nat) : String :=
  "HIDDEN4500-" ++ piece_number segment_number ++ ".ts"

/-- The local path the fetcher writes to, as a function of the
`(sourceID, index)` pair.  The `video_id` argument is unused because the
source's `file_name` f-string only interpolates `piece_number`. -/
def segment_local_path (video_id : String) (segment_number : Nat) : String :=
  segment_file_name segment_number

/-! ### The fetcher (`download_segment_async`, lines 115-141)

The HTTP layer is an oracle: for each segment number it either raises
(network/timeout failure — the `except` branch) or returns a status code and
response bytes.  A second oracle says whether the local file write succeeds
(the `except` around `open/write`).  The function returns `None` (here
`none`) on non-200 status, on a network exception, and on a write failure;
on success it returns the local file name. -/

/-- Outcome of the HTTP GET for one segment: a response with status code and
body bytes, or a raised exception (network error / timeout). -/
inductive HttpResp where
  | ok (status : Nat) (data : List Nat)
  | exn
deriving DecidableEq

/-- Oracles for one job's fetches: the HTTP outcome per segment number, and
whether writing the downloaded bytes to the local file succeeds. -/
structure SegEnv where
  http : Nat → HttpResp
  writeOk : Nat → Bool

/-- Return value of `download_segment_async`: `none` for a non-200 status,
a network exception, or a failed local write; otherwise the local file name. -/
def download_segment_async (env : SegEnv) (video_id : String) (segment_number : Nat) :
    Option String :=
  match env.http segment_number with
  | .exn => none
  | .ok status _data =>
    if status ≠ 200 then none
    else if env.writeOk segment_number then some (segment_file_name segment_number)
    else none

/-! ### Local filesystem model -/

/-- Content of a file on the local filesystem: raw bytes (a downloaded
segment, the assembled output) or text lines (the ffmpeg concat manifest). -/
inductive FileData where
  | bin (data : List Nat)
  | text (lines : List String)
deriving DecidableEq

/-- The local filesystem: a partial map from path to file content. -/
def FS : Type := String → Option FileData

/-- The empty filesystem. -/
def fs_empty : FS := fun _ => none

/-- Python `open(p, "wb")` followed by a full write: the file at `p` is
truncated and replaced by exactly the new content. -/
def fs_write (fs : FS) (p : String) (d : FileData) : FS :=
  fun q => if q = p then some d else fs q

/-- Python `os.remove(p)`. -/
def fs_remove (fs : FS) (p : String) : FS :=
  fun q => if q = p then none else fs q

/-- Filesystem effect of `download_segment_async`: on a 200 response whose
local write succeeds, the response bytes replace whatever was at the local
path (`open(file_name, "wb")` truncates); in every other case the
filesystem is unchanged. -/
def download_segment_write (env : SegEnv) (video_id : String) (segment_number : Nat)
    (fs : FS) : FS :=
  match env.http segment_number with
  | .exn => fs
  | .ok status data =>
    if status ≠ 200 then fs
    else if env.writeOk segment_number then
      fs_write fs (segment_file_name segment_number) (.bin data)
    else fs

/-! ### The sequencer (`download_all_segments`, lines 143-164)

The loop keeps a cursor `segment` starting at 1.  Each iteration builds tasks
for `range(segment, segment + batch_size)`, awaits them with
`asyncio.gather` — which returns the results in task order, i.e. in ascending
index order regardless of network completion order — and then walks the
results from the lowest index up, appending each path and advancing the
cursor until the first `None`, at which point the whole loop stops.

The embedding abstracts one completed fetch as `fetch : Nat → Option String`
(in the source, `download_segment_async` for a fixed session and video id).
`fuel` bounds the number of `while True` iterations so the definition is
total; every theorem assumes enough fuel to reach the first missing chunk.
The loop additionally threads `disp`, a ghost record of every segment index
for which a task was ever created, used to state that no further batch is
dispatched after the stopping one. -/

/-- The indices of one batch: `range(segment, segment + batch_size)`. -/
def batch_indices (segment batch_size : Nat) : List Nat :=
  (List.range batch_size).map (fun k => segment + k)

/-- The `for res in results` walk over one gathered batch: append paths and
advance the cursor until the first `None`; the boolean is the `stop` flag. -/
def drain_batch : List (Option String) → List String → Nat → List String × Nat × Bool
  | [], acc, segment => (acc, segment, false)
  | none :: _, acc, segment => (acc, segment, true)
  | some r :: rest, acc, segment => drain_batch rest (acc ++ [r]) (segment + 1)

/-- The `while True` loop of `download_all_segments`.  Returns the collected
paths and the ghost list of all dispatched indices. -/
def download_loop (fetch : Nat → Option String) (batch_size : Nat) :
    Nat → List String → List Nat → Nat → List String × List Nat
  | 0, acc, disp, _segment => (acc, disp)
  | fuel + 1, acc, disp, segment =>
    let idxs := batch_indices segment batch_size
    let r := drain_batch (idxs.map fetch) acc segment
    if r.2.2 then (r.1, disp ++ idxs)
    else download_loop fetch batch_size fuel r.1 (disp ++ idxs) r.2.1

/-- The list of local paths returned by `download_all_segments`. -/
def download_all_segments (fetch : Nat → Option String) (batch_size fuel : Nat) :
    List String :=
  (download_loop fetch batch_size fuel [] [] 1).1

/-- Ghost observation: every segment index for which `download_all_segments`
ever created a fetch task. -/
def dispatched_segments (fetch : Nat → Option String) (batch_size fuel : Nat) :
    List Nat :=
  (download_loop fetch batch_size fuel [] [] 1).2

/-! ### Assembly (`download_video_async`, lines 170-204)

After sequencing, the source sanitises the title
(`video_title.replace(":", " - ")`), builds the output path with
`os.path.join`, writes the manifest `segments.txt` with one line
`file '<abspath>'` per segment, invokes
`ffmpeg -f concat -safe 0 -i segments.txt -c copy <output>`, and on
`CalledProcessError` returns early; the `finally` block always removes the
manifest, while the loop removing the segment files runs only after a
successful remux.  The external process is modelled by a boolean oracle
`remuxOk` plus a spec-modelled concatenation semantics for its output. -/

/-- Title sanitisation, `video_title.replace(":", " - ")`: every colon
character is replaced by the three characters space, hyphen, space (the
pattern is a single character, so Python's `str.replace` acts
character-wise). -/
def safe_title (video_title : String) : String :=
  ⟨(video_title.data.map (fun c => if c = ':' then (" - " : String).data else [c])).flatten⟩

/-- Model of `os.path.join` for a folder and a file name (POSIX separator;
the source's Windows variant differs only in the separator character):
an absolute second component wins; otherwise a separator is inserted unless
the folder is empty or already ends with one. -/
def path_join (a b : String) : String :=
  if b.data.head? = some '/' then b
  else if a = "" then b
  else if a.data.getLast? = some '/' then a ++ b
  else a ++ "/" ++ b

/-- The output path `os.path.join(folder_name, f"{safe_title}.ts")`. -/
def output_file (folder_name video_title : String) : String :=
  path_join folder_name (safe_title video_title ++ ".ts")

/-- The manifest path, `list_file = "segments.txt"` in the source. -/
def list_file : String := "segments.txt"

/-- A single-quote character, written via its codepoint. -/
def squote : String := ⟨[Char.ofNat 39]⟩

/-- One manifest line, `f"file '{os.path.abspath(seg)}'"`; `abspath` models
`os.path.abspath` as an oracle. -/
def manifest_line (abspath : String → String) (seg : String) : String :=
  "file " ++ squote ++ abspath seg ++ squote

/-- The manifest content: one line per segment path, in sequencer order. -/
def manifest_lines (abspath : String → String) (segment_files : List String) :
    List String :=
  segment_files.map (manifest_line abspath)

/-- The remux command line built by the source:
`["ffmpeg", "-f", "concat", "-safe", "0", "-i", list_file, "-c", "copy", output_file]`.
The `-c copy` pair requests a stream copy (no re-encode). -/
def ffmpeg_cmd (lf out : String) : List String :=
  ["ffmpeg", "-f", "concat", "-safe", "0", "-i", lf, "-c", "copy", out]

/-- Modelled from the spec: the external remux tool (ffmpeg's concat demuxer
invoked with `-c copy`, a program not part of this repository's sources)
reads the files named in the manifest in order and emits their bytes
concatenated, without re-encoding.  A path missing from the filesystem or
holding non-binary content contributes nothing. -/
def ffmpeg_concat_output (fs : FS) (segment_files : List String) : List Nat :=
  (segment_files.map (fun p => match fs p with
    | some (.bin d) => d
    | _ => [])).flatten

/-- Outcome of one job in `download_video_async`: aborted with the message
`"No segments downloaded. Aborting video creation."`, failed remux
(`"ffmpeg failed"` printed and early return), or a completed output file. -/
inductive JobOutcome where
  | no_segments
  | remux_failed
  | completed (output : String)
deriving DecidableEq

/-- Filesystem state after a successful assembly: manifest written, output
written from the manifest's files, manifest removed (the `finally` block),
then every segment file removed (the trailing loop). -/
def assemble_success_fs (abspath : String → String) (segment_files : List String)
    (out : String) (fs : FS) : FS :=
  let fs1 := fs_write fs list_file (.text (manifest_lines abspath segment_files))
  let fs2 := fs_write fs1 out (.bin (ffmpeg_concat_output fs1 segment_files))
  let fs3 := fs_remove fs2 list_file
  segment_files.foldl fs_remove fs3

/-- The assembly phase of `download_video_async` (lines 177-204): write the
manifest, run ffmpeg, and clean up.  On a non-zero ffmpeg exit the function
returns early: the `finally` block still removes the manifest, but the
segment-removal loop is never reached, so the filesystem keeps every
segment file. -/
def assemble_segments (abspath : String → String) (remuxOk : Bool)
    (segment_files : List String) (out : String) (fs : FS) : JobOutcome × FS :=
  if remuxOk then
    (.completed out, assemble_success_fs abspath segment_files out fs)
  else
    (.remux_failed,
     fs_remove (fs_write fs list_file (.text (manifest_lines abspath segment_files)))
       list_file)

/-- `download_video_async` (lines 170-204): sequence the segments; if none
were downloaded, abort before any assembly (printing why); otherwise
assemble into `os.path.join(folder_name, f"{safe_title}.ts")`. -/
def download_video_async (fetch : Nat → Option String) (abspath : String → String)
    (remuxOk : Bool) (batch_size fuel : Nat) (video_title folder_name : String)
    (fs : FS) : JobOutcome × FS :=
  let segment_files := download_all_segments fetch batch_size fuel
  if segment_files.isEmpty then (.no_segments, fs)
  else assemble_segments abspath remuxOk segment_files
    (output_file folder_name video_title) fs

/-! ### Job construction in `main` (lines 278-291) -/

/-- The catalog branch pairs ids and titles positionally:
`for vid, title in zip(video_ids, video_titles)`. -/
def catalog_jobs (video_ids video_titles : List String) : List (String × String) :=
  video_ids.zip video_titles

/-- The commentary branch: `video_id = url.split("/")[-1]`, the final path
segment of the URL. -/
def commentary_video_id (url : String) : String :=
  (url.splitOn "/").getLastD ""

/-- The job constructed for a commentary URL:
`sync_download_video(video_id, folder_name, folder_name)`, i.e. the display
title and the destination folder are both the folder name. -/
def commentary_job (url folder_name : String) : String × String × String :=
  (commentary_video_id url, folder_name, folder_name)

/-! ### Decoding lemmas: the padded decimal name is injective -/

theorem toNat_digitChar (d : Nat) (h : d < 10) : (digitChar d).toNat = 48 + d := by
  interval_cases d <;> decide

theorem decodeRev_natDigitsRevAux :
    ∀ (fuel n : Nat), n < fuel → decodeRev (natDigitsRevAux n fuel) = n := by
  intro fuel
  induction fuel with
  | zero => intro n hn; omega
  | succ f ih =>
    intro n hn
    rw [natDigitsRevAux]
    split
    · rename_i h10
      simp [decodeRev, decodeDigit, toNat_digitChar n h10]
    · rename_i h10
      have hdiv : n / 10 < n := Nat.div_lt_self (by omega) (by omega)
      have hmod : (digitChar (n % 10)).toNat = 48 + n % 10 :=
        toNat_digitChar _ (Nat.mod_lt _ (by omega))
      simp only [decodeRev, List.foldr_cons] at *
      rw [ih (n / 10) (by omega)]
      simp [decodeDigit, hmod]
      omega

theorem decodeMSB_replicate_zero (k : Nat) (l : List Char) :
    decodeMSB (List.replicate k '0' ++ l) = decodeMSB l := by
  induction k with
  | zero => simp
  | succ m ih =>
    simpa [decodeMSB, List.replicate_succ] using ih

theorem decodeMSB_reverse (l : List Char) : decodeMSB l.reverse = decodeRev l := by
  simp [decodeMSB, decodeRev, List.foldl_reverse]

theorem decodeMSB_zfill_natStr (n : Nat) : decodeMSB (zfill 5 (natStr n)).data = n := by
  show decodeMSB (List.replicate _ '0' ++ (natStr n).data) = n
  rw [decodeMSB_replicate_zero]
  show decodeMSB (natDigitsRevAux n (n + 1)).reverse = n
  rw [decodeMSB_reverse]
  exact decodeRev_natDigitsRevAux (n + 1) n (Nat.lt_succ_self n)

theorem piece_number_inj {a b : Nat} (h : piece_number a = piece_number b) : a = b := by
  have h2 := congrArg (fun s => decodeMSB (String.data s)) h
  simpa [piece_number, decodeMSB_zfill_natStr] using h2

theorem segment_file_name_inj {a b : Nat}
    (h : segment_file_name a = segment_file_name b) : a = b := by
  apply piece_number_inj
  apply String.ext
  have hd := congrArg String.data h
  simp only [segment_file_name, String.data_append] at hd
  have h1 : "HIDDEN4500-".data ++ (piece_number a).data
      = "HIDDEN4500-".data ++ (piece_number b).data :=
    List.append_cancel_right hd
  exact List.append_cancel_left h1

/-! ### Sequencer lemmas -/

theorem mem_batch_indices {j segment batch_size : Nat}
    (h : j ∈ batch_indices segment batch_size) :
    segment ≤ j ∧ j < segment + batch_size := by
  simp only [batch_indices, List.mem_map, List.mem_range] at h
  obtain ⟨k, hk, rfl⟩ := h
  omega

/-- Draining a run of successful results appends their paths in order and
advances the cursor past them. -/
theorem drain_batch_map_some :
    ∀ (xs : List String) (rest : List (Option String)) (acc : List String) (segment : Nat),
      drain_batch (xs.map some ++ rest) acc segment
        = drain_batch rest (acc ++ xs) (segment + xs.length) := by
  intro xs
  induction xs with
  | nil => intro rest acc segment; simp
  | cons x xs ih =>
    intro rest acc segment
    simp only [List.map_cons, List.cons_append, drain_batch, List.length_cons,
      List.append_eq]
    rw [ih]
    have hacc : (acc ++ [x]) ++ xs = acc ++ x :: xs := by simp
    have hseg : segment + 1 + xs.length = segment + (xs.length + 1) := by omega
    rw [hacc, hseg]

theorem drain_batch_all_some (xs : List String) (acc : List String) (segment : Nat) :
    drain_batch (xs.map some) acc segment = (acc ++ xs, segment + xs.length, false) := by
  have h := drain_batch_map_some xs [] acc segment
  rw [List.append_nil] at h
  rw [h]
  rfl

/-- Results of one gathered batch when the first missing fetch falls inside
the batch: a run of successes below offset `M`, then `none`. -/
theorem batch_map_eq_partial (fetch : Nat → Option String) (pathOf : Nat → String)
    {batch_size M segment : Nat} (hM : M < batch_size)
    (h1 : ∀ k, k < M → fetch (segment + k) = some (pathOf (segment + k)))
    (h0 : fetch (segment + M) = none) :
    ∃ tail, (batch_indices segment batch_size).map fetch
      = ((List.range M).map (fun k => pathOf (segment + k))).map some ++ none :: tail := by
  obtain ⟨t, rfl⟩ : ∃ t, batch_size = M + (t + 1) := ⟨batch_size - M - 1, by omega⟩
  refine ⟨((List.range t).map (fun k => M + (k + 1))).map (fun k => fetch (segment + k)), ?_⟩
  simp only [batch_indices, List.map_map, List.range_add, List.map_append,
    List.range_succ_eq_map, List.map_cons, Nat.add_zero]
  congr 1
  · apply List.map_congr_left
    intro k hk
    simp only [List.mem_range] at hk
    simp [Function.comp, h1 k hk]
  · congr 1

/-- Results of one gathered batch that lies entirely below the first missing
index: every result is a success. -/
theorem batch_map_eq_full (fetch : Nat → Option String) (pathOf : Nat → String)
    {batch_size M segment : Nat} (hM : batch_size ≤ M)
    (h1 : ∀ k, k < M → fetch (segment + k) = some (pathOf (segment + k))) :
    (batch_indices segment batch_size).map fetch
      = ((List.range batch_size).map (fun k => pathOf (segment + k))).map some := by
  simp only [batch_indices, List.map_map]
  apply List.map_congr_left
  intro k hk
  simp only [List.mem_range] at hk
  simp [Function.comp, h1 k (by omega)]

/-- One iteration of the `while True` loop when the first missing index falls
inside the current batch: the loop stops, returning the accumulated paths
plus the batch prefix below the missing index, and dispatches only the
current batch. -/
theorem download_loop_stop (fetch : Nat → Option String) (pathOf : Nat → String)
    {batch_size M segment : Nat} (f : Nat) (acc : List String) (disp : List Nat)
    (hM : M < batch_size)
    (h1 : ∀ k, k < M → fetch (segment + k) = some (pathOf (segment + k)))
    (h0 : fetch (segment + M) = none) :
    download_loop fetch batch_size (f + 1) acc disp segment
      = (acc ++ (List.range M).map (fun k => pathOf (segment + k)),
         disp ++ batch_indices segment batch_size) := by
  obtain ⟨tail, htail⟩ := batch_map_eq_partial fetch pathOf hM h1 h0
  simp only [download_loop, htail, drain_batch_map_some, drain_batch]
  simp

/-- One iteration of the `while True` loop when the whole batch succeeds: the
loop continues with the batch's paths appended and the cursor advanced by the
batch size. -/
theorem download_loop_step (fetch : Nat → Option String) (pathOf : Nat → String)
    {batch_size M segment : Nat} (f : Nat) (acc : List String) (disp : List Nat)
    (hM : batch_size ≤ M)
    (h1 : ∀ k, k < M → fetch (segment + k) = some (pathOf (segment + k))) :
    download_loop fetch batch_size (f + 1) acc disp segment
      = download_loop fetch batch_size f
          (acc ++ (List.range batch_size).map (fun k => pathOf (segment + k)))
          (disp ++ batch_indices segment batch_size) (segment + batch_size) := by
  have hfull := batch_map_eq_full fetch pathOf hM h1
  simp only [download_loop, hfull, drain_batch_all_some]
  simp

/-- Master lemma for the sequencer loop: if the fetches at the `M` offsets
from the cursor succeed and the fetch at offset `M` is missing, the loop
returns the accumulator extended by exactly those `M` paths in index order,
and dispatches no index beyond the batch in which the missing fetch lies. -/
theorem download_loop_spec (fetch : Nat → Option String) (pathOf : Nat → String)
    (batch_size : Nat) :
    ∀ (fuel M segment : Nat) (acc : List String) (disp : List Nat),
      (∀ k, k < M → fetch (segment + k) = some (pathOf (segment + k))) →
      fetch (segment + M) = none →
      M < fuel * batch_size →
      (download_loop fetch batch_size fuel acc disp segment).1
          = acc ++ (List.range M).map (fun k => pathOf (segment + k))
        ∧ ∀ j ∈ (download_loop fetch batch_size fuel acc disp segment).2,
            j ∈ disp ∨ (segment ≤ j ∧ j < segment + M + batch_size) := by
  intro fuel
  induction fuel with
  | zero =>
    intro M segment acc disp _h1 _h0 hf
    simp at hf
  | succ f ih =>
    intro M segment acc disp h1 h0 hf
    by_cases hM : M < batch_size
    · rw [download_loop_stop fetch pathOf f acc disp hM h1 h0]
      refine ⟨rfl, ?_⟩
      intro j hj
      rcases List.mem_append.mp hj with hj | hj
      · exact Or.inl hj
      · right
        have := mem_batch_indices hj
        omega
    · rw [download_loop_step fetch pathOf f acc disp (by omega) h1]
      have h1' : ∀ k, k < M - batch_size →
          fetch (segment + batch_size + k) = some (pathOf (segment + batch_size + k)) := by
        intro k hk
        have := h1 (batch_size + k) (by omega)
        rwa [← Nat.add_assoc] at this
      have h0' : fetch (segment + batch_size + (M - batch_size)) = none := by
        have : segment + batch_size + (M - batch_size) = segment + M := by omega
        rwa [this]
      have hf' : M - batch_size < f * batch_size := by
        have hmul : (f + 1) * batch_size = f * batch_size + batch_size := by ring
        omega
      obtain ⟨ha, hb⟩ := ih (M - batch_size) (segment + batch_size) _ _ h1' h0' hf'
      constructor
      · rw [ha, List.append_assoc]
        congr 1
        obtain ⟨u, rfl⟩ : ∃ u, M = batch_size + u := ⟨M - batch_size, by omega⟩
        rw [List.range_add, List.map_append]
        congr 1
        simp only [List.map_map, Nat.add_sub_cancel_left]
        apply List.map_congr_left
        intro k _
        simp [Function.comp]
        congr 1
        omega
      · intro j hj
        rcases hb j hj with hj2 | hj2
        · rcases List.mem_append.mp hj2 with hj3 | hj3
          · exact Or.inl hj3
          · right
            have := mem_batch_indices hj3
            omega
        · right
          omega

/-! ### Filesystem helper lemmas -/

theorem fs_foldl_remove_of_none :
    ∀ (l : List String) (fs : FS) (p : String), fs p = none →
      (l.foldl fs_remove fs) p = none := by
  intro l
  induction l with
  | nil => intro fs p h; simpa using h
  | cons x l ih =>
    intro fs p h
    simp only [List.foldl_cons]
    apply ih
    simp [fs_remove, h]

theorem fs_foldl_remove_mem :
    ∀ (l : List String) (fs : FS) (p : String), p ∈ l →
      (l.foldl fs_remove fs) p = none := by
  intro l
  induction l with
  | nil => intro fs p h; simp at h
  | cons x l ih =>
    intro fs p h
    simp only [List.foldl_cons]
    rcases List.mem_cons.mp h with rfl | h2
    · apply fs_foldl_remove_of_none
      simp [fs_remove]
    · exact ih _ _ h2

theorem fs_foldl_remove_not_mem :
    ∀ (l : List String) (fs : FS) (p : String), p ∉ l →
      (l.foldl fs_remove fs) p = fs p := by
  intro l
  induction l with
  | nil => intro fs p _h; rfl
  | cons x l ih =>
    intro fs p h
    have hx : p ≠ x := fun he => h (he ▸ List.mem_cons_self x l)
    have hl : p ∉ l := fun he => h (List.mem_cons_of_mem x he)
    simp only [List.foldl_cons]
    rw [ih _ _ hl]
    simp [fs_remove, hx]

/-! ### String and zip helper lemmas -/

theorem string_append_assoc (a b c : String) : (a ++ b) ++ c = a ++ (b ++ c) := by
  apply String.ext
  simp

theorem zip_append_right {α β : Type} :
    ∀ (as : List α) (bs extra : List β), as.length ≤ bs.length →
      as.zip (bs ++ extra) = as.zip bs := by
  intro as
  induction as with
  | nil => intro bs extra _h; simp
  | cons a as ih =>
    intro bs extra h
    cases bs with
    | nil => simp at h
    | cons b bs =>
      simp only [List.cons_append, List.zip_cons_cons]
      rw [ih bs extra (by simpa using h)]

theorem zip_append_left {α β : Type} :
    ∀ (as extra : List α) (bs : List β), bs.length ≤ as.length →
      (as ++ extra).zip bs = as.zip bs := by
  intro as
  induction as with
  | nil =>
    intro extra bs h
    have : bs = [] := by
      cases bs
      · rfl
      · simp at h
    subst this
    simp
  | cons a as ih =>
    intro extra bs h
    cases bs with
    | nil => simp
    | cons b bs =>
      simp only [List.cons_append, List.zip_cons_cons]
      rw [ih extra bs (by simpa using h)]

/-! ### Claim theorems -/

/-- C1: for every job whose chunks 1..N are available and whose chunk N+1 is
missing, `download_all_segments` returns the list of exactly the N local
paths for indices 1..N, gap-free and in ascending index order, for any batch
size (whether or not N falls on a batch boundary).  Completion order within
a batch is immaterial because `asyncio.gather` returns results in task
(index) order, which the embedding reflects; `fuel` bounds the `while True`
loop and the hypothesis grants enough of it to reach chunk N+1. -/
theorem sequencer_returns_ordered_prefix (fetch : Nat → Option String)
    (N batch_size fuel : Nat)
    (havail : ∀ i, 1 ≤ i → i ≤ N → fetch i = some (segment_file_name i))
    (hmiss : fetch (N + 1) = none)
    (hfuel : N < fuel * batch_size) :
    download_all_segments fetch batch_size fuel
      = (List.range N).map (fun k => segment_file_name (1 + k))
    ∧ (download_all_segments fetch batch_size fuel).length = N := by
  have h1 : ∀ k, k < N → fetch (1 + k) = some (segment_file_name (1 + k)) :=
    fun k hk => havail (1 + k) (by omega) (by omega)
  have h0 : fetch (1 + N) = none := by
    rw [Nat.add_comm]
    exact hmiss
  obtain ⟨ha, _hb⟩ :=
    download_loop_spec fetch segment_file_name batch_size fuel N 1 [] [] h1 h0 hfuel
  have hmain : download_all_segments fetch batch_size fuel
      = (List.range N).map (fun k => segment_file_name (1 + k)) := by
    simp only [download_all_segments]
    rw [ha]
    simp
  refine ⟨hmain, ?_⟩
  rw [hmain]
  simp

theorem sequencer_returns_ordered_prefix_witness :
    download_all_segments
        (fun i => if i ≤ 45 then some (segment_file_name i) else none) 20 3
      = (List.range 45).map (fun k => segment_file_name (1 + k))
    ∧ (download_all_segments
        (fun i => if i ≤ 45 then some (segment_file_name i) else none) 20 3).length = 45 :=
  sequencer_returns_ordered_prefix
    (fun i => if i ≤ 45 then some (segment_file_name i) else none) 45 20 3
    (fun i _h1 h2 => by simp [h2])
    (by norm_num)
    (by norm_num)

/-- C2: if the chunks strictly below index m are available and chunk m is the
first missing (or errored) one, the sequencer returns exactly the paths for
indices 1..m-1 — so no index at or above m, even one whose fetch in the same
batch succeeded, appears in the returned list — and every index for which a
fetch task was ever dispatched is below m + batch_size, i.e. no batch beyond
the one containing the first missing index is ever dispatched. -/
theorem sequencer_stops_at_first_missing (fetch : Nat → Option String)
    (m batch_size fuel : Nat) (hm : 1 ≤ m)
    (havail : ∀ i, 1 ≤ i → i < m → fetch i = some (segment_file_name i))
    (hmiss : fetch m = none)
    (hfuel : m - 1 < fuel * batch_size) :
    download_all_segments fetch batch_size fuel
      = (List.range (m - 1)).map (fun k => segment_file_name (1 + k))
    ∧ (∀ j, m ≤ j → segment_file_name j ∉ download_all_segments fetch batch_size fuel)
    ∧ ∀ j ∈ dispatched_segments fetch batch_size fuel, j < m + batch_size := by
  have h1 : ∀ k, k < m - 1 → fetch (1 + k) = some (segment_file_name (1 + k)) :=
    fun k hk => havail (1 + k) (by omega) (by omega)
  have h0 : fetch (1 + (m - 1)) = none := by
    have he : 1 + (m - 1) = m := by omega
    rw [he]
    exact hmiss
  obtain ⟨ha, hb⟩ :=
    download_loop_spec fetch segment_file_name batch_size fuel (m - 1) 1 [] [] h1 h0 hfuel
  have hmain : download_all_segments fetch batch_size fuel
      = (List.range (m - 1)).map (fun k => segment_file_name (1 + k)) := by
    simp only [download_all_segments]
    rw [ha]
    simp
  refine ⟨hmain, ?_, ?_⟩
  · intro j hj hmem
    rw [hmain] at hmem
    obtain ⟨k, hk, he⟩ := List.mem_map.mp hmem
    have hk2 := List.mem_range.mp hk
    have := segment_file_name_inj he
    omega
  · intro j hj
    have hj2 : j ∈ (download_loop fetch batch_size fuel [] [] 1).2 := by
      simpa only [dispatched_segments] using hj
    rcases hb j hj2 with h | h
    · exact absurd h (List.not_mem_nil j)
    · omega

theorem sequencer_stops_at_first_missing_witness :
    download_all_segments
        (fun i => if i < 3 then some (segment_file_name i) else none) 20 1
      = (List.range 2).map (fun k => segment_file_name (1 + k)) :=
  (sequencer_stops_at_first_missing
    (fun i => if i < 3 then some (segment_file_name i) else none) 3 20 1
    (by norm_num)
    (fun i _h1 h2 => by simp [h2])
    (by norm_num)
    (by norm_num)).1

/-- C3 counterexample: a job with one available chunk whose remux invocation
fails.  The claim asserts that after the assembler finishes all temporary
segment files have been deleted even when the remux command exits non-zero;
in the code the `except` branch returns before the segment-removal loop, so
the segment file is still on disk afterwards (only the manifest, removed in
the `finally` block, is gone). -/
theorem remux_failure_leaves_segment_files :
    (download_video_async (fun i => if i = 1 then some (segment_file_name 1) else none)
        (fun s => s) false 20 2 "title" "folder"
        (fs_write fs_empty (segment_file_name 1) (.bin [7]))).1 = .remux_failed
    ∧ (download_video_async (fun i => if i = 1 then some (segment_file_name 1) else none)
        (fun s => s) false 20 2 "title" "folder"
        (fs_write fs_empty (segment_file_name 1) (.bin [7]))).2 (segment_file_name 1)
      = some (.bin [7])
    ∧ (download_video_async (fun i => if i = 1 then some (segment_file_name 1) else none)
        (fun s => s) false 20 2 "title" "folder"
        (fs_write fs_empty (segment_file_name 1) (.bin [7]))).2 list_file
      = none := by
  refine ⟨?_, ?_, ?_⟩ <;> decide

/-- C3 (amended): after the assembler finishes, the manifest file has always
been deleted (the `finally` block runs on both paths); when the remux
invocation succeeds, every segment file in the assembly input is deleted as
well; but when the remux invocation exits non-zero the function returns
early and the filesystem is unchanged except for the manifest — in
particular the segment files are NOT deleted on the failure path. -/
theorem manifest_and_segment_cleanup (abspath : String → String) (remuxOk : Bool)
    (segment_files : List String) (out : String) (fs : FS) :
    (assemble_segments abspath remuxOk segment_files out fs).2 list_file = none
    ∧ (remuxOk = true → ∀ s ∈ segment_files,
        (assemble_segments abspath remuxOk segment_files out fs).2 s = none)
    ∧ (remuxOk = false →
        (assemble_segments abspath remuxOk segment_files out fs).1 = .remux_failed
        ∧ ∀ s, s ≠ list_file →
            (assemble_segments abspath remuxOk segment_files out fs).2 s = fs s) := by
  cases remuxOk
  · refine ⟨?_, ?_, ?_⟩
    · simp [assemble_segments, fs_remove]
    · intro h
      cases h
    · intro _
      refine ⟨by simp [assemble_segments], ?_⟩
      intro s hs
      simp [assemble_segments, fs_remove, fs_write, hs]
  · refine ⟨?_, ?_, ?_⟩
    · simp only [assemble_segments, if_pos rfl, assemble_success_fs]
      apply fs_foldl_remove_of_none
      simp [fs_remove]
    · intro _ s hs
      simp only [assemble_segments, if_pos rfl, assemble_success_fs]
      exact fs_foldl_remove_mem _ _ _ hs
    · intro h
      cases h

theorem manifest_and_segment_cleanup_witness :
    (assemble_segments (fun s => s) true [segment_file_name 1] "out"
        (fs_write fs_empty (segment_file_name 1) (.bin [7]))).2 (segment_file_name 1)
      = none :=
  (manifest_and_segment_cleanup (fun s => s) true [segment_file_name 1] "out"
    (fs_write fs_empty (segment_file_name 1) (.bin [7]))).2.1 rfl
    (segment_file_name 1) (by simp)

/-- C4 counterexample: the temp file name is
`f"HIDDEN4500-{piece_number}.ts"`, which does not mention the sourceID, so
the distinct pairs ("a", 1) and ("b", 1) map to the same local path —
refuting the claim that two different sourceIDs never map the same index to
the same local path. -/
theorem distinct_source_ids_share_local_path :
    (("a", 1) : String × Nat) ≠ ("b", 1)
    ∧ segment_local_path "a" 1 = segment_local_path "b" 1 :=
  ⟨by decide, rfl⟩

/-- C4 (amended): the fetcher's temp file name is determined by the index
alone — distinct indices always give distinct local paths, for any
sourceIDs, but any two sourceIDs map the same index to the same path (so
two jobs sharing an index collide; within one job, whose concurrent fetches
carry distinct indices, there is no collision). -/
theorem local_path_determined_by_index (v1 v2 : String) (i1 i2 : Nat)
    (h : i1 ≠ i2) :
    segment_local_path v1 i1 ≠ segment_local_path v2 i2
    ∧ segment_local_path v1 i2 = segment_local_path v2 i2 :=
  ⟨fun he => h (segment_file_name_inj he), rfl⟩

theorem local_path_determined_by_index_witness :
    segment_local_path "a" 1 ≠ segment_local_path "b" 2
    ∧ segment_local_path "a" 2 = segment_local_path "b" 2 :=
  local_path_determined_by_index "a" "b" 1 2 (by decide)

/-- C5: for an ordered list of segments whose files hold known bytes, a
successful assembly writes an output file whose content is exactly the
concatenation of the segments' bytes in list order (hence of length the sum
of the input lengths, with no segment skipped or duplicated); the generated
manifest lists exactly the sequencer's paths, one `file '<path>'` line per
segment in sequencer order, and the remux command is
`ffmpeg -f concat -safe 0 -i segments.txt -c copy <out>`, i.e. stream-copy
mode.  The byte-level concatenation semantics of the external ffmpeg
process is the spec-modelled `ffmpeg_concat_output`. -/
theorem assemble_output_is_ordered_concatenation (abspath : String → String)
    (segment_files : List String) (out : String) (fs : FS) (data : String → List Nat)
    (hdata : ∀ s ∈ segment_files, fs s = some (.bin (data s)))
    (hlf : list_file ∉ segment_files)
    (hout_seg : out ∉ segment_files)
    (hout_lf : out ≠ list_file) :
    (assemble_segments abspath true segment_files out fs).2 out
        = some (.bin (segment_files.map data).flatten)
    ∧ ((segment_files.map data).flatten).length
        = (segment_files.map (fun s => (data s).length)).sum
    ∧ manifest_lines abspath segment_files
        = segment_files.map (fun seg => "file " ++ squote ++ abspath seg ++ squote)
    ∧ ffmpeg_cmd list_file out
        = ["ffmpeg", "-f", "concat", "-safe", "0", "-i", list_file, "-c", "copy", out] := by
  refine ⟨?_, ?_, rfl, rfl⟩
  · have hred : assemble_segments abspath true segment_files out fs
        = (.completed out, assemble_success_fs abspath segment_files out fs) := rfl
    rw [hred]
    show assemble_success_fs abspath segment_files out fs out = _
    simp only [assemble_success_fs]
    rw [fs_foldl_remove_not_mem _ _ _ hout_seg]
    simp only [fs_remove, fs_write, if_neg hout_lf, if_pos rfl, if_true]
    congr 2
    simp only [ffmpeg_concat_output]
    congr 1
    apply List.map_congr_left
    intro p hp
    have hp_lf : p ≠ list_file := fun he => hlf (he ▸ hp)
    simp only [fs_write, if_neg hp_lf, hdata p hp]
  · rw [List.length_flatten, List.map_map]
    rfl

theorem assemble_output_is_ordered_concatenation_witness :
    (assemble_segments (fun s => s) true [segment_file_name 1, segment_file_name 2]
        "out"
        (fs_write (fs_write fs_empty (segment_file_name 1) (.bin [1, 2]))
          (segment_file_name 2) (.bin [3]))).2 "out"
      = some (.bin ([segment_file_name 1, segment_file_name 2].map
          (fun s => if s = segment_file_name 1 then [1, 2] else [3])).flatten) :=
  (assemble_output_is_ordered_concatenation (fun s => s)
    [segment_file_name 1, segment_file_name 2] "out"
    (fs_write (fs_write fs_empty (segment_file_name 1) (.bin [1, 2]))
      (segment_file_name 2) (.bin [3]))
    (fun s => if s = segment_file_name 1 then [1, 2] else [3])
    (by intro s hs
        simp only [List.mem_cons, List.not_mem_nil, or_false] at hs
        rcases hs with rfl | rfl <;> decide)
    (by decide) (by decide) (by decide)).1

/-- C6: when the very first chunk is missing or errored (the fetch of index 1
returns `None`), the sequencer returns the empty list, and
`download_video_async` returns the `no_segments` outcome — which models the
printed abort message `"No segments downloaded. Aborting video creation."` —
with the filesystem untouched, so no manifest or output file is ever
created and the assembly phase is skipped entirely. -/
theorem first_chunk_missing_aborts_job (fetch : Nat → Option String)
    (abspath : String → String) (remuxOk : Bool) (batch_size fuel : Nat)
    (video_title folder_name : String) (fs : FS)
    (hbs : 0 < batch_size) (hfuel : 0 < fuel)
    (hmiss : fetch 1 = none) :
    download_all_segments fetch batch_size fuel = []
    ∧ download_video_async fetch abspath remuxOk batch_size fuel
        video_title folder_name fs = (.no_segments, fs) := by
  obtain ⟨f, rfl⟩ : ∃ f, fuel = f + 1 := ⟨fuel - 1, by omega⟩
  have h1 : ∀ k, k < 0 → fetch (1 + k) = some (segment_file_name (1 + k)) :=
    fun k hk => absurd hk (by omega)
  have h0 : fetch (1 + 0) = none := by simpa using hmiss
  have hstop :=
    @download_loop_stop fetch segment_file_name batch_size 0 1 f [] [] hbs h1 h0
  have hseq : download_all_segments fetch batch_size (f + 1) = [] := by
    simp only [download_all_segments]
    rw [hstop]
    simp
  refine ⟨hseq, ?_⟩
  simp [download_video_async, hseq]

theorem first_chunk_missing_aborts_job_witness :
    download_all_segments (fun _ => none) 20 1 = []
    ∧ download_video_async (fun _ => none) (fun s => s) true 20 1
        "title" "folder" fs_empty = (.no_segments, fs_empty) :=
  first_chunk_missing_aborts_job (fun _ => none) (fun s => s) true 20 1
    "title" "folder" fs_empty (by norm_num) (by norm_num) rfl

/-- C7: fetching is idempotent with respect to stale local state: on an HTTP
200 response whose local write succeeds, the file at the fetcher's local
path holds exactly the response bytes afterwards, whatever was there before
(the `open(file_name, "wb")` mode truncates, never appends), so the content
equals that of a fresh run on an empty filesystem; the fetcher returns the
local file name. -/
theorem fetch_overwrites_stale_file (env : SegEnv) (video_id : String)
    (segment_number : Nat) (data : List Nat) (fs : FS)
    (hhttp : env.http segment_number = .ok 200 data)
    (hw : env.writeOk segment_number = true) :
    download_segment_write env video_id segment_number fs
        (segment_file_name segment_number) = some (.bin data)
    ∧ download_segment_write env video_id segment_number fs
        (segment_file_name segment_number)
      = download_segment_write env video_id segment_number fs_empty
          (segment_file_name segment_number)
    ∧ download_segment_async env video_id segment_number
        = some (segment_file_name segment_number) := by
  refine ⟨?_, ?_, ?_⟩ <;>
    simp [download_segment_write, download_segment_async, hhttp, hw, fs_write]

theorem fetch_overwrites_stale_file_witness :
    download_segment_write ⟨fun _ => .ok 200 [1, 2, 3], fun _ => true⟩ "vid" 1
        (fs_write fs_empty (segment_file_name 1) (.bin [9, 9, 9, 9]))
        (segment_file_name 1) = some (.bin [1, 2, 3]) :=
  (fetch_overwrites_stale_file ⟨fun _ => .ok 200 [1, 2, 3], fun _ => true⟩ "vid" 1
    [1, 2, 3] (fs_write fs_empty (segment_file_name 1) (.bin [9, 9, 9, 9]))
    rfl rfl).1

/-- C8: the output path is `<folder>/<sanitizedTitle>.ts`, where the title is
sanitised by substituting every ':' (so the sanitised title contains no
colon at all); and a commentary-style URL yields the job whose sourceID is
the URL's final path segment and whose display title is the destination
folder name, so — provided the folder name itself is unchanged by
sanitisation, i.e. contains no ':' — its output path is
`<folder>/<folder>.ts`.  The side conditions say the folder name is
non-empty, does not already end in a separator, and the file component is
not absolute, matching `os.path.join`'s regular case. -/
theorem output_path_construction (folder_name url video_title : String)
    (h1 : folder_name ≠ "")
    (h2 : folder_name.data.getLast? ≠ some '/')
    (h3 : (safe_title video_title ++ ".ts").data.head? ≠ some '/')
    (h4 : (safe_title folder_name ++ ".ts").data.head? ≠ some '/')
    (hsan : safe_title folder_name = folder_name) :
    output_file folder_name video_title
        = folder_name ++ "/" ++ safe_title video_title ++ ".ts"
    ∧ (∀ c ∈ (safe_title video_title).data, c ≠ ':')
    ∧ commentary_job url folder_name
        = (commentary_video_id url, folder_name, folder_name)
    ∧ output_file folder_name folder_name
        = folder_name ++ "/" ++ folder_name ++ ".ts" := by
  refine ⟨?_, ?_, rfl, ?_⟩
  · show path_join folder_name (safe_title video_title ++ ".ts") = _
    simp only [path_join, if_neg h3, if_neg h1, if_neg h2]
    simp [string_append_assoc]
  · intro c hc
    have hc2 : c ∈ (video_title.data.map
        (fun d => if d = ':' then (" - " : String).data else [d])).flatten := hc
    rw [List.mem_flatten] at hc2
    obtain ⟨l, hl, hcl⟩ := hc2
    rw [List.mem_map] at hl
    obtain ⟨d, _hd, rfl⟩ := hl
    by_cases hdc : d = ':'
    · rw [if_pos hdc] at hcl
      have hdata : (" - " : String).data = [' ', '-', ' '] := rfl
      rw [hdata] at hcl
      simp only [List.mem_cons, List.not_mem_nil, or_false] at hcl
      rcases hcl with rfl | rfl | rfl <;> decide
    · rw [if_neg hdc] at hcl
      simp only [List.mem_cons, List.not_mem_nil, or_false] at hcl
      subst hcl
      exact hdc
  · rw [hsan] at h4
    show path_join folder_name (safe_title folder_name ++ ".ts") = _
    rw [hsan]
    simp only [path_join, if_neg h4, if_neg h1, if_neg h2]
    simp [string_append_assoc]

theorem output_path_construction_witness :
    output_file "folder" "folder"
      = "folder" ++ "/" ++ "folder" ++ ".ts" :=
  (output_path_construction "folder" "https://site/commentaries/abc" "a:b"
    (by decide) (by decide) (by decide) (by decide) (by decide)).2.2.2

/-- C9: the catalog branch pairs the extracted id list and title list
positionally with `zip`: exactly `min` of the two lengths many jobs are
created, the k-th job pairs the k-th id with the k-th title, and surplus
elements on either side are silently dropped — appending extra titles (when
ids are the shorter list) or extra ids (when titles are the shorter list)
changes nothing, with no error raised and no job created for the surplus. -/
theorem catalog_jobs_pair_positionally (video_ids video_titles : List String) :
    (catalog_jobs video_ids video_titles).length
        = min video_ids.length video_titles.length
    ∧ (∀ (k : Nat) (hk1 : k < video_ids.length) (hk2 : k < video_titles.length),
        (catalog_jobs video_ids video_titles).get
            ⟨k, by simp [catalog_jobs]; omega⟩
          = (video_ids.get ⟨k, hk1⟩, video_titles.get ⟨k, hk2⟩))
    ∧ (∀ extra : List String, video_ids.length ≤ video_titles.length →
        catalog_jobs video_ids (video_titles ++ extra)
          = catalog_jobs video_ids video_titles)
    ∧ (∀ extra : List String, video_titles.length ≤ video_ids.length →
        catalog_jobs (video_ids ++ extra) video_titles
          = catalog_jobs video_ids video_titles) := by
  refine ⟨by simp [catalog_jobs], ?_, ?_, ?_⟩
  · intro k hk1 hk2
    simp [catalog_jobs, List.get_eq_getElem, List.getElem_zip]
  · intro extra h
    exact zip_append_right _ _ _ h
  · intro extra h
    exact zip_append_left _ _ _ h

theorem catalog_jobs_pair_positionally_witness :
    (catalog_jobs ["a", "b", "c"] ["x", "y"]).length = min 3 2
    ∧ catalog_jobs (["a", "b", "c"] ++ ["d"]) ["x", "y"]
        = catalog_jobs ["a", "b", "c"] ["x", "y"] :=
  ⟨(catalog_jobs_pair_positionally ["a", "b", "c"] ["x", "y"]).1,
   (catalog_jobs_pair_positionally ["a", "b", "c"] ["x", "y"]).2.2.2 ["d"] (by norm_num)⟩

/-- C10: if the HTTP GET for segment m returns status 200 but the local
write fails, the fetcher returns `none` — the same outcome as a missing
chunk — so the sequencer treats it as end-of-stream: with chunks below m
fetched successfully it returns exactly the paths for indices 1..m-1, and
when at least one segment precedes the failure (2 ≤ m) the job proceeds to
assembly and completes an output file from those earlier segments. -/
theorem write_failure_treated_as_missing (env : SegEnv) (video_id : String)
    (m batch_size fuel : Nat) (data : List Nat)
    (abspath : String → String) (video_title folder_name : String) (fs : FS)
    (hm : 1 ≤ m)
    (hbefore : ∀ i, 1 ≤ i → i < m →
        download_segment_async env video_id i = some (segment_file_name i))
    (hhttp : env.http m = .ok 200 data)
    (hw : env.writeOk m = false)
    (hfuel : m - 1 < fuel * batch_size) :
    download_segment_async env video_id m = none
    ∧ download_all_segments (fun i => download_segment_async env video_id i)
        batch_size fuel
      = (List.range (m - 1)).map (fun k => segment_file_name (1 + k))
    ∧ (2 ≤ m →
        (download_video_async (fun i => download_segment_async env video_id i)
            abspath true batch_size fuel video_title folder_name fs).1
          = .completed (output_file folder_name video_title)) := by
  have hasync : download_segment_async env video_id m = none := by
    simp [download_segment_async, hhttp, hw]
  have h1 : ∀ k, k < m - 1 →
      (fun i => download_segment_async env video_id i) (1 + k)
        = some (segment_file_name (1 + k)) :=
    fun k hk => hbefore (1 + k) (by omega) (by omega)
  have h0 : (fun i => download_segment_async env video_id i) (1 + (m - 1)) = none := by
    have he : 1 + (m - 1) = m := by omega
    simp only [he]
    exact hasync
  obtain ⟨ha, _⟩ :=
    download_loop_spec (fun i => download_segment_async env video_id i)
      segment_file_name batch_size fuel (m - 1) 1 [] [] h1 h0 hfuel
  have hseq : download_all_segments (fun i => download_segment_async env video_id i)
      batch_size fuel
      = (List.range (m - 1)).map (fun k => segment_file_name (1 + k)) := by
    simp only [download_all_segments]
    rw [ha]
    simp
  refine ⟨hasync, hseq, ?_⟩
  intro hm2
  obtain ⟨t, ht⟩ : ∃ t, m - 1 = t + 1 := ⟨m - 2, by omega⟩
  rw [ht, List.range_succ_eq_map] at hseq
  simp only [download_video_async, hseq, List.map_cons, List.isEmpty_cons,
    Bool.false_eq_true, if_false]
  simp [assemble_segments]

theorem write_failure_treated_as_missing_witness :
    download_segment_async
      ⟨fun i => .ok 200 [i], fun i => decide (i < 3)⟩ "vid" 3 = none :=
  (write_failure_treated_as_missing
    ⟨fun i => .ok 200 [i], fun i => decide (i < 3)⟩ "vid" 3 20 1 [3]
    (fun s => s) "title" "folder" fs_empty
    (by norm_num)
    (by intro i hi1 hi2
        interval_cases i <;> rfl)
    rfl rfl (by norm_num)).1

end Skillcapped
